import Mathlib

/-!
Shallow embedding of `generate/warm_then_infere.py` (lit-parrot).

The embedded code:
* `generate` (source lines 31-98): the autoregressive decoding loop.
  Token ids are integers (`Token := Int`), logits are exact rationals
  (`List ℚ`), the model is a function from the selected token window,
  `max_seq_length` and the position indices to a matrix of logit rows
  (one row per window entry), of which the loop takes the last row
  (`logits[0, -1]`).  The random draw of `torch.multinomial` is abstracted
  as a state-threading function `pick` of the masked logits; the
  distribution it draws from is characterised separately by `softmaxProb`.
* `infere` (source lines 150-215): its body contains `yield`, so a call
  builds a generator; `infereBody` is the effect of running that generator,
  recording an event trace (encode / generate / reset_cache / decode /
  yield) and the list of yielded strings.
-/

namespace WarmThenInfere

/-- Token ids: the integer dtype of the `idx` tensor. -/
abbrev Token := Int

/-- Dynamic errors the sampling section of `generate` can raise:
`torch.topk` raises for a negative `k`, and `v[[-1]]` raises an index
error when `v` is the empty tensor produced by `k = 0`. -/
inductive GenError where
  | topkInvalid
  | indexError
deriving DecidableEq, Repr

/-- The logits sorted in descending order, as `torch.topk` orders its
returned values. -/
def sortDesc (l : List ℚ) : List ℚ :=
  List.insertionSort (fun a b => a ≥ b) l

/-- The `k`-th largest logit (1-indexed): `torch.topk(logits, k).values[-1]`,
i.e. entry `k - 1` of the descending sort. -/
def kthLargest (l : List ℚ) (k : ℕ) : ℚ :=
  (sortDesc l).getD (k - 1) 0

/-- Source line 80: `torch.where(logits < v[[-1]], -inf, logits)`.
`none` stands for `-inf`; every logit strictly below the `k`-th largest is
masked out, ties at the threshold are all kept. -/
def topkMask (l : List ℚ) (k : ℕ) : List (Option ℚ) :=
  l.map (fun q => if q < kthLargest l k then none else some q)

/-- Source lines 78-80: optionally crop the logits to the top `k` options.
`torch.topk(logits, min(top_k, logits.size(-1)))` clamps `top_k` to the
vocabulary size; a negative clamped `k` makes `torch.topk` raise, and
`k = 0` returns an empty `v`, so `v[[-1]]` raises an index error. -/
def applyTopK (topK : Option ℤ) (l : List ℚ) : Except GenError (List (Option ℚ)) :=
  match topK with
  | none => .ok (l.map some)
  | some k =>
    let cropped : ℤ := min k (l.length : ℤ)
    if cropped < 0 then .error .topkInvalid
    else if cropped = 0 then .error .indexError
    else .ok (topkMask l cropped.toNat)

/-- The finite (unmasked) entries of a masked logit vector. -/
def finiteVals (l : List (Option ℚ)) : List ℚ :=
  l.filterMap id

/-- The softmax normaliser over the unmasked logits; a masked (`-inf`)
entry contributes `exp (-inf) = 0` and so is absent from the sum. -/
noncomputable def softmaxDenom (l : List (Option ℚ)) : ℝ :=
  ((finiteVals l).map (fun q : ℚ => Real.exp (q : ℝ))).sum

/-- Source line 82, `torch.nn.functional.softmax(logits, dim=-1)`: the
probability that `torch.multinomial` assigns to index `i` of the (possibly
masked) logit vector.  A masked entry has probability `0`. -/
noncomputable def softmaxProb (l : List (Option ℚ)) (i : ℕ) : ℝ :=
  match l[i]? with
  | some (some q) => Real.exp (q : ℝ) / softmaxDenom l
  | _ => 0

/-- Modelled from the spec for the C9 refinement comparison, following its
words "plain softmax sampling over all logits scaled by `1/temperature`":
the probability of index `i` under a softmax of the raw logits, each
multiplied by `1/temperature`, with no masking. -/
noncomputable def plainSoftmaxSpec (l : List ℚ) (t : ℚ) (i : ℕ) : ℝ :=
  match l[i]? with
  | some q => Real.exp ((q : ℝ) / (t : ℝ)) /
      (l.map (fun q' : ℚ => Real.exp ((q' : ℝ) / (t : ℝ)))).sum
  | none => 0

/-- The external model: maps the selected token window, `max_seq_length`
and the position indices to one row of logits per window entry. -/
def ModelFn : Type :=
  List Token → ℕ → List ℕ → List (List ℚ)

/-- Source lines 70-98, the decoding loop of `generate`, fuelled by the
iteration count `max_returned_tokens - T`.  Each iteration:
`x = idx.index_select(0, input_pos)`, forward, take the last row, divide
by `temperature`, optionally crop to the top `k`, sample (`pick`), advance
`input_pos = input_pos[-1:] + 1`, write the sampled token at the new
position (`index_copy`), and on `idx_next == eos_id` return
`idx[:input_pos]` — the slice bound is the position the eos token was just
written at, so the eos token itself is NOT part of the returned slice.
Besides the result it returns the list of position-index arguments passed
to the model, one entry per forward call. -/
def genLoop {ρ : Type} (model : ModelFn) (pick : List (Option ℚ) → ρ → Token × ρ)
    (maxSeqLength : ℕ) (temperature : ℚ) (topK : Option ℤ) (eosId : Option Token) :
    ℕ → List Token → List ℕ → ρ → Except GenError (List Token) × List (List ℕ)
  | 0, buf, _, _ => (.ok buf, [])
  | fuel + 1, buf, inputPos, rng =>
    let x := inputPos.map (fun i => buf.getD i 0)
    let row := (model x maxSeqLength inputPos).getLastD []
    let scaled := row.map (fun q => q / temperature)
    match applyTopK topK scaled with
    | .error e => (.error e, [inputPos])
    | .ok masked =>
      let picked := pick masked rng
      let pos := inputPos.getLastD 0 + 1
      let buf' := buf.set pos picked.1
      if eosId = some picked.1 then (.ok (buf'.take pos), [inputPos])
      else
        let rest := genLoop model pick maxSeqLength temperature topK eosId fuel buf' [pos] picked.2
        (rest.1, inputPos :: rest.2)

/-- Source lines 31-98, `generate`, together with the trace of position
indices passed to the model.  The buffer is allocated at capacity
`max_returned_tokens` with the prompt in `[0, T)` (the `torch.empty`
garbage beyond `T` is modelled as zeros; every slot the code returns is
written before it is returned), `input_pos` starts as `0..T-1`, and the
loop runs at most `max_returned_tokens - T` times. -/
def generateFull {ρ : Type} (model : ModelFn) (pick : List (Option ℚ) → ρ → Token × ρ)
    (rng : ρ) (idx : List Token) (maxReturnedTokens maxSeqLength : ℕ)
    (temperature : ℚ) (topK : Option ℤ) (eosId : Option Token) :
    Except GenError (List Token) × List (List ℕ) :=
  let T := idx.length
  let buf := idx ++ List.replicate (maxReturnedTokens - T) 0
  genLoop model pick maxSeqLength temperature topK eosId
    (maxReturnedTokens - T) buf (List.range T) rng

/-- The value `generate` returns (or the error it raises). -/
def generate {ρ : Type} (model : ModelFn) (pick : List (Option ℚ) → ρ → Token × ρ)
    (rng : ρ) (idx : List Token) (maxReturnedTokens maxSeqLength : ℕ)
    (temperature : ℚ) (topK : Option ℤ) (eosId : Option Token) :
    Except GenError (List Token) :=
  (generateFull model pick rng idx maxReturnedTokens maxSeqLength temperature topK eosId).1

/-- The position-index arguments of the successive `model(x, max_seq_length,
input_pos)` calls made by `generate`. -/
def modelCallPositions {ρ : Type} (model : ModelFn) (pick : List (Option ℚ) → ρ → Token × ρ)
    (rng : ρ) (idx : List Token) (maxReturnedTokens maxSeqLength : ℕ)
    (temperature : ℚ) (topK : Option ℤ) (eosId : Option Token) :
    List (List ℕ) :=
  (generateFull model pick rng idx maxReturnedTokens maxSeqLength temperature topK eosId).2

/-- Python runtime errors of the `infere` path: an unbound global name
(`NameError`) or an unbound local read (`UnboundLocalError`). -/
inductive PyError where
  | nameError (n : String)
  | unboundLocal (n : String)
deriving DecidableEq, Repr

/-- Observable actions performed while the `infere` generator runs:
`tokenizer.encode`, the `generate(...)` call of sample `i`,
`model.reset_cache()` after sample `i`, `tokenizer.decode` of sample `i`,
and a `yield` of a string to the consumer. -/
inductive Ev where
  | encode
  | generateCall (i : ℕ)
  | resetCache (i : ℕ)
  | decode (i : ℕ)
  | yieldOut (s : String)
deriving DecidableEq, Repr

/-- The names bound at the top level of `warm_then_infere.py`: the imports
(lines 1-16) and the module-level definitions (`wd`, `generate`,
`load_model`, `infere`).  `fabric` is a local of `load_model` only, never a
module global. -/
def moduleGlobals : List String :=
  ["json", "sys", "time", "warnings", "Path", "Optional", "Tuple", "L", "torch",
   "wd", "Parrot", "Tokenizer", "Config", "EmptyInitOnDevice", "lazy_load",
   "check_valid_checkpoint_dir", "generate", "load_model", "infere"]

/-- Source lines 150-215.  Because line 215 is a `yield`, `infere` is a
generator function: a call runs none of the body and hands back a generator.
`infereBody` is the effect of driving that generator to completion: the
event trace, and either the runtime error it raises or the pair of (the
strings it yields, the `StopIteration` value of a `return`).  The first
statement (line 181) evaluates the global `fabric`; when it is not bound
the body dies with `NameError` before `tokenizer.encode` is called.
Otherwise the `for` loop runs every sample to completion — rebinding
`result_as_string` each time — and only afterwards does line 212 branch:
`num_samples == 1` executes `return result_as_string` (a generator return:
the string becomes the `StopIteration` value, nothing is yielded), and
otherwise line 215 yields the single surviving `result_as_string`, the
decode of the LAST sample.  `decodeOf i` stands for
`tokenizer.decode` applied to the tokens generated for sample `i`. -/
def infereBody (globals : List String) (numSamples : ℕ) (decodeOf : ℕ → String) :
    List Ev × Except PyError (List String × Option String) :=
  if "fabric" ∈ globals then
    let loopEvents := (List.range numSamples).flatMap
      (fun i => [Ev.generateCall i, Ev.resetCache i, Ev.decode i])
    if numSamples = 0 then
      (Ev.encode :: loopEvents, .error (.unboundLocal "result_as_string"))
    else
      let lastResult := decodeOf (numSamples - 1)
      if numSamples = 1 then (Ev.encode :: loopEvents, .ok ([], some lastResult))
      else (Ev.encode :: (loopEvents ++ [Ev.yieldOut lastResult]),
            .ok ([lastResult], none))
  else ([], .error (.nameError "fabric"))

/-- Running the generator returned by a real call of `infere`, i.e.
`infereBody` in the actual module environment. -/
def infereRun (numSamples : ℕ) (decodeOf : ℕ → String) :
    List Ev × Except PyError (List String × Option String) :=
  infereBody moduleGlobals numSamples decodeOf

/-- With `eos_id` unset the early-return branch is unreachable, so a
successful run of the loop hands back the whole buffer: length preserved. -/
theorem genLoop_none_length {ρ : Type} (model : ModelFn)
    (pick : List (Option ℚ) → ρ → Token × ρ) (ms : ℕ) (t : ℚ) (topK : Option ℤ) :
    ∀ (fuel : ℕ) (buf : List Token) (ipos : List ℕ) (rng : ρ) (out : List Token),
      (genLoop model pick ms t topK none fuel buf ipos rng).1 = .ok out →
      out.length = buf.length := by
  intro fuel
  induction fuel with
  | zero =>
    intro buf ipos rng out h
    simp only [genLoop] at h
    cases h
    rfl
  | succ n ih =>
    intro buf ipos rng out h
    simp only [genLoop] at h
    split at h
    · simp at h
    · split at h
      · simp_all
      · have := ih _ _ _ _ h
        simpa [List.length_set] using this

/-- On every exit path the loop returns a (possibly truncated) copy of the
buffer, whose length it preserves: the result never outgrows the buffer. -/
theorem genLoop_length_le {ρ : Type} (model : ModelFn)
    (pick : List (Option ℚ) → ρ → Token × ρ) (ms : ℕ) (t : ℚ) (topK : Option ℤ)
    (eosId : Option Token) :
    ∀ (fuel : ℕ) (buf : List Token) (ipos : List ℕ) (rng : ρ) (out : List Token),
      (genLoop model pick ms t topK eosId fuel buf ipos rng).1 = .ok out →
      out.length ≤ buf.length := by
  intro fuel
  induction fuel with
  | zero =>
    intro buf ipos rng out h
    simp only [genLoop] at h
    cases h
    exact le_refl _
  | succ n ih =>
    intro buf ipos rng out h
    simp only [genLoop] at h
    split at h
    · simp at h
    · split at h
      · simp only [Prod.fst] at h
        cases h
        simp [List.length_take, List.length_set]
      · have := ih _ _ _ _ h
        simpa [List.length_set] using this

/-- C1 (code bug evidence): with prompt `[5, 6, 7]` (`T = 3`),
`max_returned_tokens = 6`, `eos_id = 2` and a model/sampler that emits the
eos token at the very first sampled position, the code returns
`idx[:input_pos] = [5, 6, 7]` — length `T`, the eos token dropped — even
though the claim (and the source's own comment `# include the EOS token`
on line 96) requires length `T + 1` ending in the eos token.  The slice
bound `input_pos` is the index the eos token was just written at, so the
slice excludes it. -/
theorem generate_eos_first_step_drops_eos :
    generate (fun _ _ _ => [[0]]) (fun _ (r : Unit) => ((2 : Token), r)) ()
        [5, 6, 7] 6 6 1 none (some 2) = .ok [5, 6, 7] ∧
    ([(5 : Token), 6, 7].length = 3 ∧ [(5 : Token), 6, 7].getLast? ≠ some 2) :=
  ⟨rfl, by decide⟩

/-- C4: with `eos_id` unset, a run over a prompt of length `T` with
`max_returned_tokens = T + N` returns a sequence of length exactly
`T + N`. -/
theorem generate_length_no_eos {ρ : Type} (model : ModelFn)
    (pick : List (Option ℚ) → ρ → Token × ρ) (rng : ρ) (idx : List Token)
    (N maxSeq : ℕ) (t : ℚ) (topK : Option ℤ) (out : List Token)
    (_hN : 0 < N)
    (h : generate model pick rng idx (idx.length + N) maxSeq t topK none = .ok out) :
    out.length = idx.length + N := by
  simp only [generate, generateFull] at h
  have hl := genLoop_none_length model pick maxSeq t topK _ _ _ _ _ h
  simpa using hl

/-- C4 witness: the spec's concrete scenario — prompt `[5, 6, 7]`,
`max_new_tokens = 3`, a model whose single logit row makes the sampler
always pick token `9`, no eos: result `[5, 6, 7, 9, 9, 9]`, length 6. -/
theorem generate_length_no_eos_witness :
    [(5 : Token), 6, 7, 9, 9, 9].length = [(5 : Token), 6, 7].length + 3 :=
  generate_length_no_eos (fun _ _ _ => [[0]]) (fun _ (r : Unit) => ((9 : Token), r)) ()
    [5, 6, 7] 3 6 1 (some 1) [5, 6, 7, 9, 9, 9] (by decide) (by rfl)

/-- C5: on every termination path — eos-triggered early return or loop
exhaustion — the returned sequence never exceeds the buffer capacity
`max_returned_tokens`. -/
theorem generate_length_le_capacity {ρ : Type} (model : ModelFn)
    (pick : List (Option ℚ) → ρ → Token × ρ) (rng : ρ) (idx : List Token)
    (cap maxSeq : ℕ) (t : ℚ) (topK : Option ℤ) (eosId : Option Token) (out : List Token)
    (hT : idx.length ≤ cap)
    (h : generate model pick rng idx cap maxSeq t topK eosId = .ok out) :
    out.length ≤ cap := by
  simp only [generate, generateFull] at h
  have hl := genLoop_length_le model pick maxSeq t topK eosId _ _ _ _ _ h
  simp only [List.length_append, List.length_replicate] at hl
  omega

/-- C5 witness: the eos-terminated run of the C1 scenario returns 3 tokens,
within the capacity 6. -/
theorem generate_length_le_capacity_witness :
    [(5 : Token), 6, 7].length ≤ 6 :=
  generate_length_le_capacity (fun _ _ _ => [[0]]) (fun _ (r : Unit) => ((2 : Token), r)) ()
    [5, 6, 7] 6 6 1 none (some 2) [5, 6, 7] (by decide) (by rfl)

/-- C10: all the randomness of the sampling loop lives in the explicitly
threaded random source (`torch.multinomial` under the seed set by
`L.seed_everything`): two runs from the same seeded source, the same
inputs and models producing identical logits (and identical draws) yield
identical results and identical model-call traces. -/
theorem generate_deterministic {ρ : Type} (model₁ model₂ : ModelFn)
    (pick₁ pick₂ : List (Option ℚ) → ρ → Token × ρ) (rng : ρ) (idx : List Token)
    (cap maxSeq : ℕ) (t : ℚ) (topK : Option ℤ) (eosId : Option Token)
    (hm : ∀ x s p, model₁ x s p = model₂ x s p)
    (hp : ∀ l r, pick₁ l r = pick₂ l r) :
    generateFull model₁ pick₁ rng idx cap maxSeq t topK eosId =
      generateFull model₂ pick₂ rng idx cap maxSeq t topK eosId := by
  have h1 : model₁ = model₂ := funext fun x => funext fun s => funext fun p => hm x s p
  have h2 : pick₁ = pick₂ := funext fun l => funext fun r => hp l r
  rw [h1, h2]

/-- C10 witness: two textually independent but logit-identical model stubs
produce the same run. -/
theorem generate_deterministic_witness :
    generateFull (fun _ _ _ => [[0, 1]]) (fun _ (r : Unit) => ((9 : Token), r)) ()
        [5] 3 3 1 none none =
      generateFull (fun _ _ _ => [[0, 0 + 1]]) (fun _ (r : Unit) => ((9 : Token), r)) ()
        [5] 3 3 1 none none :=
  generate_deterministic _ _ _ _ () [5] 3 3 1 none none
    (fun _ _ _ => by norm_num) (fun _ _ => rfl)

/-- C3: `infere` has a `yield` in its body, so a plain call returns a
generator and runs nothing; `fabric` is not among the module's global
names (it is a local of `load_model`), so driving the generator raises
`NameError` at its first statement (line 181), before any tokenization or
model call — the event trace is empty — and neither the yield path nor the
`num_samples == 1` return path ever delivers a string. -/
theorem infere_generator_name_error (n : ℕ) (d : ℕ → String) :
    "fabric" ∉ moduleGlobals ∧
      infereRun n d = ([], .error (.nameError "fabric")) := by
  have hf : "fabric" ∉ moduleGlobals := by decide
  exact ⟨hf, by simp [infereRun, infereBody, hf]⟩

/-- C2 (code bug evidence): even with the unbound `fabric` repaired (bound
as a global), a `num_samples = 2` run of the `infere` generator performs
both generations — each followed by `model.reset_cache()` — to completion
first, and only then yields a single string: the decode of the LAST
sample.  The caller gets one yielded value, not one result per sample, and
nothing is consumable before all samples are done, although the docstring
promises "If num_samples > 1, it yields the result for each prediction one
by one". -/
theorem infere_two_samples_single_yield (d : ℕ → String) :
    infereBody ("fabric" :: moduleGlobals) 2 d =
      ([Ev.encode, Ev.generateCall 0, Ev.resetCache 0, Ev.decode 0,
        Ev.generateCall 1, Ev.resetCache 1, Ev.decode 1, Ev.yieldOut (d 1)],
       .ok ([d 1], none)) := by
  rfl

/-- A non-positive `top_k` reaches `torch.topk` unclamped (`min` keeps it)
and blows up there or at `v[[-1]]`: the error is raised inside the loop,
at the masking step. -/
theorem applyTopK_nonpos (k : ℤ) (l : List ℚ) (hk : k ≤ 0) :
    applyTopK (some k) l =
      .error (if k < 0 then GenError.topkInvalid else GenError.indexError) := by
  have hmin : min k (l.length : ℤ) = k := min_eq_left (hk.trans (Int.natCast_nonneg _))
  rcases lt_or_eq_of_le hk with h | h
  · simp [applyTopK, hmin, h]
  · subst h
    simp [applyTopK, hmin]

/-- C7 counterexample: a call whose `top_k = 10` exceeds the vocabulary
size 3 does NOT fail before the decoding loop — it runs the full loop to a
normal result (here two forward calls are even made, so work is performed),
because line 79 silently clamps with `min(top_k, logits.size(-1))`. -/
theorem topk_exceeds_vocab_no_failure :
    generate (fun _ _ _ => [[1, 2, 3]]) (fun _ (r : Unit) => ((7 : Token), r)) ()
        [0] 3 3 1 (some 10) none = .ok [0, 7, 7] ∧
    (modelCallPositions (fun _ _ _ => [[1, 2, 3]]) (fun _ (r : Unit) => ((7 : Token), r)) ()
        [0] 3 3 1 (some 10) none).length = 2 :=
  ⟨rfl, rfl⟩

/-- C7 amended: a `top_k` exceeding the vocabulary size is silently
clamped to the vocabulary size (the call behaves exactly as
`top_k = vocab` and succeeds); a non-positive `top_k` raises an error at
the first masking step inside the decoding loop — after the first model
forward call (the trace below has length 1) — not before the loop
starts. -/
theorem topk_clamped_and_nonpositive_error :
    (∀ (l : List ℚ) (k : ℤ), (l.length : ℤ) ≤ k →
        applyTopK (some k) l = applyTopK (some (l.length : ℤ)) l) ∧
    (∀ k : ℤ, k ≤ 0 →
        ∃ e : GenError,
          genLoop (fun _ _ _ => [[1, 2, 3]]) (fun _ (r : Unit) => ((7 : Token), r))
              3 1 (some k) none 2 [0, 0, 0] [0] () = (.error e, [[0]])) := by
  constructor
  · intro l k hk
    simp only [applyTopK]
    rw [min_eq_right hk, min_self]
  · intro k hk
    refine ⟨if k < 0 then GenError.topkInvalid else GenError.indexError, ?_⟩
    simp only [genLoop]
    rw [applyTopK_nonpos k _ hk]

/-- C7 amended witness: `top_k = 5` over a 2-token vocabulary masks like
`top_k = 2`; `top_k = -1` errors inside the loop after one model call. -/
theorem topk_clamped_and_nonpositive_error_witness :
    applyTopK (some 5) [(1 : ℚ), 2] = applyTopK (some (([(1 : ℚ), 2].length : ℕ) : ℤ)) [(1 : ℚ), 2] ∧
    (∃ e : GenError,
        genLoop (fun _ _ _ => [[1, 2, 3]]) (fun _ (r : Unit) => ((7 : Token), r))
            3 1 (some (-1)) none 2 [0, 0, 0] [0] () = (.error e, [[0]])) :=
  ⟨topk_clamped_and_nonpositive_error.1 [1, 2] 5 (by decide),
   topk_clamped_and_nonpositive_error.2 (-1) (by decide)⟩

/-- Shape of the model-call trace of the loop: the first forward call gets
the incoming `input_pos`, and the `j`-th later call gets the single
position `last input_pos + j` — the cursor advances by exactly 1 per
step. -/
theorem genLoop_positions {ρ : Type} (model : ModelFn)
    (pick : List (Option ℚ) → ρ → Token × ρ) (ms : ℕ) (t : ℚ) (topK : Option ℤ)
    (eosId : Option Token) :
    ∀ (fuel : ℕ) (buf : List Token) (ipos : List ℕ) (rng : ρ) (j : ℕ),
      j < (genLoop model pick ms t topK eosId fuel buf ipos rng).2.length →
      (genLoop model pick ms t topK eosId fuel buf ipos rng).2[j]? =
        some (if j = 0 then ipos else [ipos.getLastD 0 + j]) := by
  intro fuel
  induction fuel with
  | zero =>
    intro buf ipos rng j hj
    simp [genLoop] at hj
  | succ n ih =>
    intro buf ipos rng j hj
    simp only [genLoop] at hj ⊢
    split at hj
    case h_1 e heq =>
      simp only [List.length_cons, List.length_nil] at hj
      interval_cases j
      simp
    case h_2 masked heq =>
      split at hj
      case isTrue hcond =>
        simp only [List.length_cons, List.length_nil] at hj
        interval_cases j
        simp [hcond]
      case isFalse hcond =>
        simp only [hcond, if_false] at hj ⊢
        cases j with
        | zero => simp
        | succ j' =>
          simp only [List.length_cons, Nat.succ_lt_succ_iff] at hj
          have hrec := ih _ [ipos.getLastD 0 + 1] _ j' hj
          simp only [List.getElem?_cons_succ]
          rw [hrec]
          have hx : ([ipos.getLastD 0 + 1] : List ℕ).getLastD 0 = ipos.getLastD 0 + 1 := rfl
          rw [hx]
          by_cases h0 : j' = 0
          · subst h0
            simp
          · rw [if_neg h0, if_neg (by omega : ¬(j' + 1 = 0))]
            simp only [Option.some.injEq, List.cons.injEq, and_true]
            omega

/-- C8: the position indices passed to `model` are `0..T-1` on the very
first forward call and the single index `T + j - 1` on the `j`-th
subsequent call: the position cursor strictly increases by exactly 1 per
step after the first step, which covers the whole prompt window. -/
theorem generate_position_schedule {ρ : Type} (model : ModelFn)
    (pick : List (Option ℚ) → ρ → Token × ρ) (rng : ρ) (idx : List Token)
    (cap maxSeq : ℕ) (t : ℚ) (topK : Option ℤ) (eosId : Option Token) (j : ℕ)
    (hT : 1 ≤ idx.length)
    (hj : j < (modelCallPositions model pick rng idx cap maxSeq t topK eosId).length) :
    (modelCallPositions model pick rng idx cap maxSeq t topK eosId)[j]? =
      some (if j = 0 then List.range idx.length else [idx.length + j - 1]) := by
  simp only [modelCallPositions, generateFull] at hj ⊢
  rw [genLoop_positions model pick maxSeq t topK eosId _ _ _ _ j hj]
  have hlast : (List.range idx.length).getLastD 0 = idx.length - 1 := by
    obtain ⟨m, hm⟩ : ∃ m, idx.length = m + 1 := ⟨idx.length - 1, by omega⟩
    rw [hm, List.range_succ, List.getLastD_concat]
    omega
  rw [hlast]
  rcases Nat.eq_zero_or_pos j with hj0 | hj0
  · simp [hj0]
  · have : j ≠ 0 := by omega
    simp only [this, if_false]
    congr 2
    omega

/-- C8 witness: with prompt `[5, 6, 7]` and capacity 6, the second
forward call receives the single position index 3. -/
theorem generate_position_schedule_witness :
    (modelCallPositions (fun _ _ _ => [[0]]) (fun _ (r : Unit) => ((9 : Token), r)) ()
        [5, 6, 7] 6 6 1 none none)[1]? = some [3] :=
  generate_position_schedule (fun _ _ _ => [[0]]) (fun _ (r : Unit) => ((9 : Token), r)) ()
    [5, 6, 7] 6 6 1 none none 1 (by decide) (by decide)

/-- The descending sort is a permutation of the input. -/
theorem sortDesc_perm (l : List ℚ) : List.Perm (sortDesc l) l :=
  List.perm_insertionSort _ l

/-- The descending sort is sorted by `≥`. -/
theorem sortDesc_sorted (l : List ℚ) : (sortDesc l).Sorted (fun a b => a ≥ b) :=
  List.sorted_insertionSort _ l

/-- At least `k` entries of the logits are not strictly below the `k`-th
largest: the `k` leading entries of the descending sort all reach it. -/
theorem kthLargest_count_ge (l : List ℚ) (k : ℕ) (h1 : 1 ≤ k) (h2 : k ≤ l.length) :
    k ≤ l.countP (fun q => !decide (q < kthLargest l k)) := by
  have hperm := sortDesc_perm l
  have hsorted := sortDesc_sorted l
  have hlen : (sortDesc l).length = l.length := hperm.length_eq
  rw [← hperm.countP_eq]
  have hkv : k - 1 < (sortDesc l).length := by omega
  have hvs : kthLargest l k = (sortDesc l)[k - 1] := by
    simp [kthLargest, List.getD_eq_getElem?_getD, List.getElem?_eq_getElem hkv]
  have htake : ∀ x ∈ (sortDesc l).take k, (!decide (x < kthLargest l k)) = true := by
    intro x hx
    obtain ⟨i, hi, hxi⟩ := List.getElem_of_mem hx
    have hik : i < k := by
      have := List.length_take k (sortDesc l)
      omega
    have hisl : i < (sortDesc l).length := by omega
    have hx_eq : x = (sortDesc l)[i] := by
      have := List.getElem?_take_of_lt (l := sortDesc l) hik
      rw [List.getElem?_eq_getElem hi, List.getElem?_eq_getElem hisl] at this
      · exact (Option.some.inj this) ▸ hxi.symm
    have hrel : (sortDesc l)[i] ≥ (sortDesc l)[k - 1] := by
      rcases Nat.lt_or_ge i (k - 1) with hik' | hik'
      · exact List.pairwise_iff_getElem.mp hsorted i (k - 1) hisl hkv hik'
      · have hieq : i = k - 1 := by omega
        subst hieq
        exact le_refl _
    rw [hx_eq, hvs]
    simpa using not_lt.mpr hrel
  calc k = ((sortDesc l).take k).length := by rw [List.length_take]; omega
    _ = ((sortDesc l).take k).countP (fun q => !decide (q < kthLargest l k)) :=
        (List.countP_eq_length.mpr htake).symm
    _ ≤ (sortDesc l).countP (fun q => !decide (q < kthLargest l k)) := by
        conv_rhs => rw [← List.take_append_drop k (sortDesc l)]
        rw [List.countP_append]
        omega

/-- Counting the survivors of the threshold map: one kept entry per list
element not strictly below the threshold. -/
theorem length_filterMap_thresh (v : ℚ) : ∀ L : List ℚ,
    (L.filterMap (fun q => if q < v then none else some q)).length
      = L.countP (fun q => !decide (q < v))
  | [] => rfl
  | a :: L => by
    by_cases hc : a < v <;>
      simp [List.filterMap_cons, hc, List.countP_cons, length_filterMap_thresh v L]

/-- The finite entries of the threshold mask are exactly the entries not
strictly below the threshold. -/
theorem length_filterMask (v : ℚ) (L : List ℚ) :
    (finiteVals (L.map (fun q => if q < v then none else some q))).length
      = L.countP (fun q => !decide (q < v)) := by
  simp only [finiteVals]
  rw [List.filterMap_map]
  simpa [Function.comp] using length_filterMap_thresh v L

/-- C6: for `1 ≤ k ≤ vocab`, line 79-80 of the source crops the logits to
the top `k`: `applyTopK` returns the mask that replaces exactly the logits
strictly below the `k`-th largest value with `-inf` (ties at the threshold
all survive), at least `k` entries stay finite, and after softmax every
masked index carries zero probability mass. -/
theorem topk_mask_correct (l : List ℚ) (k : ℕ) (h1 : 1 ≤ k) (h2 : k ≤ l.length) :
    applyTopK (some (k : ℤ)) l = .ok (topkMask l k) ∧
    (∀ (i : ℕ) (q : ℚ), l[i]? = some q →
      (topkMask l k)[i]? = some (if q < kthLargest l k then none else some q)) ∧
    k ≤ (finiteVals (topkMask l k)).length ∧
    (∀ (i : ℕ) (q : ℚ), l[i]? = some q → q < kthLargest l k →
      softmaxProb (topkMask l k) i = 0) := by
  refine ⟨?_, ?_, ?_, ?_⟩
  · simp only [applyTopK]
    have hmin : min (k : ℤ) (l.length : ℤ) = (k : ℤ) := min_eq_left (by exact_mod_cast h2)
    rw [hmin, if_neg (by omega : ¬((k : ℤ) < 0)), if_neg (by omega : ¬((k : ℤ) = 0))]
    rw [Int.toNat_natCast]
  · intro i q hq
    simp [topkMask, List.getElem?_map, hq]
  · have hcount := kthLargest_count_ge l k h1 h2
    simp only [topkMask]
    rw [length_filterMask]
    exact hcount
  · intro i q hq hlt
    have hmask : (topkMask l k)[i]? = some none := by
      simp [topkMask, List.getElem?_map, hq, hlt]
    simp [softmaxProb, hmask]

/-- C6 witness: over logits `[1, 3, 2]` with `k = 2`, at least two entries
survive the mask. -/
theorem topk_mask_correct_witness :
    2 ≤ (finiteVals (topkMask [(1 : ℚ), 3, 2] 2)).length :=
  (topk_mask_correct [1, 3, 2] 2 (by decide) (by decide)).2.2.1

/-- Keeping every entry (`map some`) leaves the logit list unchanged. -/
theorem finiteVals_map_some (L : List ℚ) : finiteVals (L.map some) = L := by
  simp [finiteVals, List.filterMap_map]

/-- C9: with `top_k` unset the per-step distribution of `generate` is
exactly plain softmax sampling over the full vocabulary with every logit
scaled by `1/temperature`: the cropping step is the identity (no entry
masked), the per-index probabilities agree with the spec-side
`plainSoftmaxSpec`, and no in-range index is forced to probability
zero. -/
theorem no_topk_plain_softmax (l : List ℚ) (t : ℚ) (_ht : 0 < t) :
    applyTopK none (l.map (fun q => q / t)) = .ok ((l.map (fun q => q / t)).map some) ∧
    (∀ i, softmaxProb ((l.map (fun q => q / t)).map some) i = plainSoftmaxSpec l t i) ∧
    (∀ i, i < l.length → 0 < softmaxProb ((l.map (fun q => q / t)).map some) i) := by
  have hdenom : softmaxDenom ((l.map (fun q => q / t)).map some) =
      (l.map (fun q' : ℚ => Real.exp ((q' : ℝ) / (t : ℝ)))).sum := by
    rw [softmaxDenom, finiteVals_map_some, List.map_map]
    congr 1
    exact List.map_congr_left
      (fun q _ => by simp only [Function.comp_apply]; push_cast; rfl)
  refine ⟨rfl, ?_, ?_⟩
  · intro i
    cases hq : l[i]? with
    | none =>
      have hnone : ((l.map (fun q => q / t)).map some)[i]? = none := by
        simp [List.getElem?_map, hq]
      simp [softmaxProb, plainSoftmaxSpec, hq, hnone]
    | some q =>
      have hsome : ((l.map (fun q => q / t)).map some)[i]? = some (some (q / t)) := by
        simp [List.getElem?_map, hq]
      simp only [softmaxProb, plainSoftmaxSpec, hq, hsome]
      rw [hdenom]
      congr 1
      push_cast
      rfl
  · intro i hi
    have hq : l[i]? = some l[i] := List.getElem?_eq_getElem hi
    have hsome : ((l.map (fun q => q / t)).map some)[i]? = some (some (l[i] / t)) := by
      simp [List.getElem?_map, hq]
    simp only [softmaxProb, hsome]
    apply div_pos (Real.exp_pos _)
    rw [hdenom]
    apply List.sum_pos
    · intro x hx
      obtain ⟨q, _, rfl⟩ := List.mem_map.mp hx
      exact Real.exp_pos _
    · intro hnil
      rw [List.map_eq_nil_iff] at hnil
      rw [hnil] at hi
      simp at hi

/-- C9 witness: index 0 of the two-token vocabulary `[1, 2]` at
temperature 1 has the plain softmax probability. -/
theorem no_topk_plain_softmax_witness :
    softmaxProb (([(1 : ℚ), 2].map (fun q => q / 1)).map some) 0 = plainSoftmaxSpec [1, 2] 1 0 :=
  (no_topk_plain_softmax [1, 2] 1 (by norm_num)).2.1 0

end WarmThenInfere
